import Mathlib

/-!
# Verification of the fastify-file-router route-compilation and validation engine

This file gives a shallow embedding of the route-compilation and
mixed-schema-validation core of the `fastify-file-router` package and proves
the specified properties about it.

JavaScript strings are modelled as `List Char` (the sources only manipulate
ASCII route names).  Fallible functions (`throw` in the source) are modelled
with `Except String`/`Except (List Char)`; a JS function that can also return
`null` is modelled with `Option` inside `Except`.

Source files embedded here:
* `routeConverter.ts` — `toHttpMethod`, `mergeLiteralDots`, `toRouteRemixStyle`
* `constants.ts` — `validMethods`, `methodRegex`, `remixSegment`, `remixParamRegex`
* `routeRegistration.ts` — `parseFileName`, `buildUrl`, the `preValidation`
  hook and the `preSerialization` hook of `registerRoutes`
* `defineRouteZod.ts` — `formatZodError`, `formatJsonSchemaError`,
  `zodToJsonSchema`
-/

set_option autoImplicit false

namespace FFR

/-- JavaScript strings are modelled as lists of characters. -/
abbrev Str := List Char

/-- Character list of a Lean string literal (used to write concrete JS strings). -/
def chars (s : String) : Str := s.data

/-- JS `string.split(sep)` for a single-character separator.
`go` carries the reversed current token. -/
def splitOnCharAux (sep : Char) : Str → Str → List Str
  | [], acc => [acc.reverse]
  | c :: rest, acc =>
    if c = sep then acc.reverse :: splitOnCharAux sep rest []
    else splitOnCharAux sep rest (c :: acc)

/-- JS `string.split(sep)` for a single-character separator string. -/
def splitOnChar (sep : Char) (l : Str) : List Str := splitOnCharAux sep l []

/-- JS `string.includes(pat)` for a pattern list: `pat` occurs as a contiguous
sub-sequence of `l`. -/
def containsSeq (pat : Str) : Str → Bool
  | [] => pat.isPrefixOf ([] : Str)
  | c :: rest => pat.isPrefixOf (c :: rest) || containsSeq pat rest

/-- JS `fileName.replace(/\[\.\]/g, repl)`: global replacement of the literal
escape token `[.]`. -/
def replaceLitDot (repl : Str) : Str → Str
  | '[' :: '.' :: ']' :: rest => repl ++ replaceLitDot repl rest
  | c :: rest => c :: replaceLitDot repl rest
  | [] => []

/-- JS `string.split(pat)` for a non-empty pattern `p :: ps`, with explicit
fuel (the fuel is always at least the length of the remaining input, so the
fuel-zero case is unreachable). -/
def splitOnSeqAux (p : Char) (ps : Str) : Nat → Str → Str → List Str
  | 0, _, acc => [acc.reverse]
  | _ + 1, [], acc => [acc.reverse]
  | fuel + 1, c :: rest, acc =>
    if (p :: ps).isPrefixOf (c :: rest) then
      acc.reverse :: splitOnSeqAux p ps fuel (rest.drop ps.length) []
    else
      splitOnSeqAux p ps fuel rest (c :: acc)

/-- JS `string.split(pat)` for a multi-character separator string.
Only called with the non-empty placeholder pattern. -/
def splitOnSeq (pat : Str) (l : Str) : List Str :=
  match pat with
  | [] => [l]
  | p :: ps => splitOnSeqAux p ps (l.length + 1) l []

/-- JS `array.map(f)` where `f` may throw: the first thrown error aborts the
whole map. -/
def mapExcept {ε α β : Type} (f : α → Except ε β) : List α → Except ε (List β)
  | [] => .ok []
  | a :: l =>
    match f a with
    | .error e => .error e
    | .ok b =>
      match mapExcept f l with
      | .error e => .error e
      | .ok bs => .ok (b :: bs)

/-! ## constants.ts -/

/-- From `constants.ts`: `validMethods = ['delete', 'get', 'head', 'patch', 'post', 'put']`. -/
def validMethods : List Str :=
  [chars "delete", chars "get", chars "head", chars "patch", chars "post", chars "put"]

/-- JS line terminators, which `.` in a regex without the `s` flag does not match. -/
def isJsLineTerm (c : Char) : Bool :=
  c = '\n' || c = '\r' || c = '\u2028' || c = '\u2029'

/-- From `constants.ts`: `methodRegex = new RegExp("^(delete|get|head|patch|post|put})(\\..+)?$")`
(with the six methods interpolated).  A string matches iff it is one of the six
method names, optionally followed by a dot and a non-empty remainder in which
`.` can match every character (so no line terminators). -/
def methodRegexTest (m : Str) : Bool :=
  validMethods.any fun v =>
    m = v ||
      ((v ++ ['.']).isPrefixOf m &&
        decide ((m.drop (v.length + 1)).length ≥ 1) &&
        (m.drop (v.length + 1)).all fun c => !isJsLineTerm c)

/-- The literal-dot escape token `[.]`. -/
def litDot : Str := chars "[.]"

/-- From `constants.ts`: `remixSegment = /^\$?(\[\.\]|[^[\]$&]*)$/` — the part after
the optional `$`: either exactly `[.]` or characters outside `[ ] $ &`. -/
def remixSegmentCore (t : Str) : Bool :=
  t = litDot || t.all fun c => c ≠ '[' && c ≠ ']' && c ≠ '$' && c ≠ '&'

/-- From `constants.ts`: `remixSegment.test(s)`. -/
def remixSegmentTest (s : Str) : Bool :=
  remixSegmentCore s ||
    (match s with
     | '$' :: rest => remixSegmentCore rest
     | _ => false)

/-- From `constants.ts`: `s.match(remixParamRegex)` for
`remixParamRegex = /^\$(?<param>.*)$/`: a leading `$` captures the remainder
as `param`, where `.` does not cross line terminators. -/
def remixParamMatch (s : Str) : Option Str :=
  match s with
  | '$' :: rest => if rest.all (fun c => !isJsLineTerm c) then some rest else none
  | _ => none

/-! ## routeConverter.ts -/

/-- From `routeConverter.ts` `toHttpMethod`: validate the method token against
`methodRegex`, throwing an error that names the offending file. -/
def toHttpMethod (method : Str) (fullPath : Str) : Except Str Str :=
  if method.isEmpty || !methodRegexTest method then
    .error (chars "Invalid method \"" ++ method ++ chars "\" in file " ++ fullPath)
  else
    .ok method

/-- From `routeConverter.ts` `mergeLiteralDots` loop: `acc` is the `merged` array in
reverse.  A `[.]` token is appended (with a `.`) onto the previous merged
segment, also consuming the following token when it is non-empty; empty
tokens are skipped. -/
def mergeLiteralDotsAux (fullPath : Str) : List Str → List Str → Except Str (List Str)
  | acc, [] => .ok acc.reverse
  | acc, seg :: rest =>
    if seg.isEmpty then mergeLiteralDotsAux fullPath acc rest
    else if seg = litDot then
      match acc with
      | [] => .error (chars "Invalid segment \"[.]\" at start of route in file " ++ fullPath)
      | m :: ms =>
        match rest with
        | next :: rest2 =>
          if !next.isEmpty then
            mergeLiteralDotsAux fullPath ((m ++ '.' :: next) :: ms) rest2
          else
            -- the source appends "." and does not advance past `next`; the
            -- empty `next` is then skipped by the `if (!segment) continue`
            -- of the following iteration, so the loop continues at `rest2`
            mergeLiteralDotsAux fullPath ((m ++ ['.']) :: ms) rest2
        | [] =>
          -- `next` is undefined: append "." and the loop ends
          .ok (((m ++ ['.']) :: ms).reverse)
    else mergeLiteralDotsAux fullPath (seg :: acc) rest

/-- From `routeConverter.ts` `mergeLiteralDots`. -/
def mergeLiteralDots (segments : List Str) (fullPath : Str) : Except Str (List Str) :=
  mergeLiteralDotsAux fullPath [] segments

/-- The per-segment body of the `.map` in `toRouteRemixStyle`: reject segments
failing `remixSegment`, convert `$name` to `:name`, bare `$` to `*`. -/
def convertRemixSegment (fullPath : Str) (segment : Str) : Except Str Str :=
  if !remixSegmentTest segment then
    .error (chars "Invalid segment \"" ++ segment ++ chars "\" in file " ++ fullPath)
  else
    match remixParamMatch segment with
    | some param => .ok (if param.length > 0 then ':' :: param else chars "*")
    | none => .ok segment

/-- From `routeConverter.ts` `toRouteRemixStyle`: merge literal dots, convert every
segment, join with `/`. -/
def toRouteRemixStyle (segments : List Str) (fullPath : Str) : Except Str Str :=
  match mergeLiteralDots segments fullPath with
  | .error e => .error e
  | .ok merged =>
    match mapExcept (convertRemixSegment fullPath) merged with
    | .error e => .error e
    | .ok converted => .ok (List.intercalate (chars "/") converted)

/-! ## routeRegistration.ts: parseFileName and buildUrl -/

/-- The placeholder `parseFileName` substitutes for `[.]` before splitting on dots. -/
def placeholder : Str := chars "__LITERAL_DOT__"

/-- Result of a successful `parseFileName`. -/
structure ParsedFileName where
  routeSegments : List Str
  method : Str
  extension : Str
  deriving DecidableEq, Repr

/-- The inner loop of `parseFileName` over one dot-token: a token equal to the
placeholder becomes `[.]`; a token containing the placeholder is split on it,
pushing the non-empty parts with `[.]` between consecutive parts; other
non-empty tokens are kept; empty tokens are dropped. -/
def expandPlaceholderParts : List Str → List Str
  | [] => []
  | [p] => if !p.isEmpty then [p] else []
  | p :: parts => (if !p.isEmpty then [p] else []) ++ litDot :: expandPlaceholderParts parts

/-- The `processedSegments` accumulation of `parseFileName`. -/
def processSegments : List Str → List Str
  | [] => []
  | seg :: rest =>
    (if seg = placeholder then [litDot]
     else if containsSeq placeholder seg then expandPlaceholderParts (splitOnSeq placeholder seg)
     else if !seg.isEmpty then [seg]
     else []) ++ processSegments rest

/-- From `routeRegistration.ts` `parseFileName`: replace `[.]` by a dot-free
placeholder, split on dots, restore `[.]` tokens, and read off extension
(last processed token), method (next-to-last) and route segments (the rest).
`Except.error` models `throw`; `.ok none` models returning `null` for a file
whose extension is not accepted.  JS's `` `.${undefined}` `` stringification
for an out-of-range index is modelled by the `"undefined"` fallback. -/
def parseFileName (fileName : Str) (extensions : List Str) (fullPath : Str) :
    Except Str (Option ParsedFileName) :=
  let fileNameWithPlaceholder := replaceLitDot placeholder fileName
  let segments := splitOnChar '.' fileNameWithPlaceholder
  if segments.length < 2 then
    .error (chars "Invalid file name \"" ++ fileName ++ chars "\" in file " ++ fullPath ++
      chars ", must have at least 2 segments separated by a dot")
  else
    let processedSegments := processSegments segments
    let extensionSegment :=
      '.' :: (match processedSegments.getLast? with
              | some s => s
              | none => chars "undefined")
    let methodSegment := processedSegments.dropLast.getLast?
    let routeSegments := processedSegments.dropLast.dropLast
    if !extensions.contains extensionSegment then
      .ok none
    else
      match methodSegment with
      | none =>
        .error (chars "Invalid file name \"" ++ fileName ++ chars "\" in file " ++ fullPath ++
          chars ", method segment is missing")
      | some m =>
        if m.isEmpty then
          .error (chars "Invalid file name \"" ++ fileName ++ chars "\" in file " ++ fullPath ++
            chars ", method segment is missing")
        else
          .ok (some { routeSegments := routeSegments, method := m, extension := extensionSegment })

/-- From `routeRegistration.ts` `buildUrl`: strip a leading slash from the route
path, prepend the mount point unless it is `/`, and ensure a leading slash. -/
def buildUrl (routePath : Str) (mount : Str) : Str :=
  -- `url.startsWith('/')` is first-character-is-slash; `substring(1)` is `tail`
  let url := if routePath.head? = some '/' then routePath.tail else routePath
  let url := if mount ≠ chars "/" then mount ++ '/' :: url else url
  if url.head? = some '/' then url else '/' :: url

/-- Whether a string contains two adjacent slashes (a duplicated `/` separator). -/
def hasDoubleSlash : Str → Bool
  | [] => false
  | [_] => false
  | a :: b :: rest => (a = '/' && b = '/') || hasDoubleSlash (b :: rest)

/-! ## JavaScript values

Request parts (params / query / body / headers) and JSON payloads are
modelled by a small JSON-like value type.  Numbers are modelled as rationals
(the query-string coercion only ever produces finite decimals). -/

inductive JsValue where
  | str (s : Str)
  | num (q : ℚ)
  | bool (b : Bool)
  | null
  | obj (fields : List (Str × JsValue))
  | arr (elems : List JsValue)

/-- First-match association lookup, JS property access `o[k]`. -/
def lookupKey (k : Str) : List (Str × JsValue) → Option JsValue
  | [] => none
  | (k', v) :: rest => if k' = k then some v else lookupKey k rest

/-- JS property assignment `o[k] = v`: overwrite in place, or append. -/
def setKey (k : Str) (v : JsValue) : List (Str × JsValue) → List (Str × JsValue)
  | [] => [(k, v)]
  | (k', v') :: rest => if k' = k then (k, v) :: rest else (k', v') :: setKey k v rest

/-- JS `delete o[k]`. -/
def removeKey (k : Str) : List (Str × JsValue) → List (Str × JsValue)
  | [] => []
  | (k', v) :: rest => if k' = k then removeKey k rest else (k', v) :: removeKey k rest

/-! ## defineRouteZod.ts: error formatters and validator interfaces -/

/-- One Zod issue: a path into the value and a message. -/
structure ZodIssue where
  path : List Str
  message : Str

/-- A Zod error is its list of issues. -/
abbrev ZodError := List ZodIssue

/-- Result of Zod's `schema.safeParse(data)`. -/
inductive ZodResult where
  | success (data : JsValue)
  | failure (error : ZodError)

/-- A language-B (Zod) validator: `safeParse` of some Zod schema.  The Zod
library itself is an external capability; a validator is any function of
this shape. -/
abbrev ZodValidator := JsValue → ZodResult

/-- One Ajv error object (`instancePath` plus optional `message`). -/
structure AjvError where
  instancePath : Str
  message : Option Str

/-- Outcome of an Ajv `validate(data)` call.  Ajv (configured with
`coerceTypes: true, useDefaults: true`) mutates `data` in place; `data` here
is the value as seen by the caller after the call. -/
structure AjvOutcome where
  ok : Bool
  errors : List AjvError
  data : JsValue

/-- A compiled language-A (JSON Schema) validator, `ajvInstance.compile(schema)`.
Ajv itself is an external capability; a validator is any function of this shape. -/
abbrev AjvValidator := JsValue → AjvOutcome

/-- From `defineRouteZod.ts` `formatZodError`: `"Bad Request: <component> - "`
followed by the comma-joined issue messages, each prefixed by its
dot-joined path and `": "` when the path is non-empty. -/
def formatZodError (error : ZodError) (component : Str) : Str :=
  let issueMessages := error.map fun issue =>
    (if issue.path.length > 0 then List.intercalate (chars ".") issue.path ++ chars ": " else []) ++
      issue.message
  chars "Bad Request: " ++ component ++ chars " - " ++ List.intercalate (chars ", ") issueMessages

/-- From `defineRouteZod.ts` `formatJsonSchemaError`: like `formatZodError` but the
path prefix is the Ajv `instancePath` without its first character, and a
missing message becomes `"validation failed"`. -/
def formatJsonSchemaError (errors : List AjvError) (component : Str) : Str :=
  let issueMessages := errors.map fun error =>
    (if !error.instancePath.isEmpty then error.instancePath.drop 1 ++ chars ": " else []) ++
      (match error.message with
       | some msg => msg
       | none => chars "validation failed")
  chars "Bad Request: " ++ component ++ chars " - " ++ List.intercalate (chars ", ") issueMessages

/-! ## routeRegistration.ts: the preValidation hook -/

/-- The provenance recorded for one request part (`__schemaTypes`). -/
inductive SchemaType where
  | zod
  | json
  deriving DecidableEq

/-- The four request parts validated by the preValidation hook. -/
inductive PartName where
  | params
  | querystring
  | body
  | headers
  deriving DecidableEq

/-- The component name used in formatted error messages. -/
def partNameStr : PartName → Str
  | .params => chars "params"
  | .querystring => chars "querystring"
  | .body => chars "body"
  | .headers => chars "headers"

/-- Validation configuration of one request part, as fixed at registration
time: `schemaType` is `types.<part>`; `zodV` is present iff
`zodSchema.<part>` is present (and is its `safeParse`); `ajvV` is present iff
`schema.<part>` is present and the Ajv instance was created (and is the
compiled validator). -/
structure PartCfg where
  schemaType : Option SchemaType
  zodV : Option ZodValidator
  ajvV : Option AjvValidator

/-- Validation configuration of one route (all four parts). -/
structure ValidationCfg where
  params : PartCfg
  querystring : PartCfg
  body : PartCfg
  headers : PartCfg

/-- The mutable request data the hook reads and replaces. -/
structure RequestState where
  params : JsValue
  query : JsValue
  body : JsValue
  headers : JsValue

/-- Outcome of the preValidation hook: an early `reply.status(s).send({error})`
or the (possibly updated) request proceeding to the handler. -/
inductive HookResult where
  | reply (status : ℕ) (errorBody : Str)
  | proceed (req : RequestState)

/-- JS whitespace characters stripped by `string.trim()` (the characters
relevant to query-string values). -/
def isJsWhitespace (c : Char) : Bool :=
  c = ' ' || c = '\t' || c = '\n' || c = '\r' || c = '\x0b' || c = '\x0c'

/-- JS `string.trim()`. -/
def jsTrim (s : Str) : Str :=
  ((s.dropWhile isJsWhitespace).reverse.dropWhile isJsWhitespace).reverse

/-- Whether every character is a decimal digit. -/
def allDigits (l : Str) : Bool := l.all Char.isDigit

/-- Numeric value of a list of decimal digits. -/
def digitsVal (l : Str) : ℕ := l.foldl (fun n c => 10 * n + (c.toNat - '0'.toNat)) 0

/-- Model of the JavaScript `Number(string)` builtin (an external capability),
restricted to optionally-signed decimal literals: whitespace is trimmed, the
empty string is `0`, and `d+`, `d+.d*`, `.d+` parse as decimals.  Exponents,
hex/octal/binary literals and `Infinity` are outside the model; `none` is
`NaN`. -/
def jsNumber (s : Str) : Option ℚ :=
  let t := jsTrim s
  if t.isEmpty then some 0
  else
    let sgn : ℚ := match t with
                   | '-' :: _ => -1
                   | _ => 1
    let u := match t with
             | '-' :: r => r
             | '+' :: r => r
             | _ => t
    match splitOnChar '.' u with
    | [intPart] =>
      if !intPart.isEmpty && allDigits intPart then some (sgn * digitsVal intPart) else none
    | [intPart, fracPart] =>
      if intPart.isEmpty && fracPart.isEmpty then none
      else if allDigits intPart && allDigits fracPart then
        some (sgn * ((digitsVal intPart : ℚ) + (digitsVal fracPart : ℚ) / ((10 : ℚ) ^ fracPart.length)))
      else none
    | _ => none

/-- The query-string value coercion in the `json` querystring branch of the
preValidation hook: `'true'`/`'false'` become booleans; a string whose
`Number(...)` conversion is not `NaN`, whose trim is non-empty and which
contains no `'.'` becomes that number; everything else is kept. -/
def coerceQueryValue (v : JsValue) : JsValue :=
  match v with
  | .str s =>
    if s = chars "true" then .bool true
    else if s = chars "false" then .bool false
    else
      match jsNumber s with
      | some numValue =>
        if !(jsTrim s).isEmpty && !s.contains '.' then .num numValue else .str s
      | none => .str s
  | other => other

/-- The whole-object query coercion loop (`Object.entries(queryObj || {})`).
`request.query` is always an object; a non-object yields the empty object. -/
def coerceQuery (q : JsValue) : JsValue :=
  match q with
  | .obj fields => .obj (fields.map fun kv => (kv.1, coerceQueryValue kv.2))
  | _ => .obj []

/-- The params block of the preValidation hook (part_021 lines 364–381):
Zod provenance runs `safeParse` and replaces `request.params`; JSON
provenance runs the compiled Ajv validator (which coerces `request.params`
in place, modelled by keeping `AjvOutcome.data`). -/
def validateParamsPart (cfg : ValidationCfg) (req : RequestState) :
    Except (ℕ × Str) RequestState :=
  if cfg.params.schemaType = some .zod then
    match cfg.params.zodV with
    | some v =>
      match v req.params with
      | .failure e => .error (400, formatZodError e (chars "params"))
      | .success d => .ok { req with params := d }
    | none => .ok req
  else if cfg.params.schemaType = some .json then
    match cfg.params.ajvV with
    | some v =>
      let r := v req.params
      if !r.ok then .error (400, formatJsonSchemaError r.errors (chars "params"))
      else .ok { req with params := r.data }
    | none => .ok req
  else .ok req

/-- The querystring block of the hook (part_021 lines 383–427); the JSON
branch first coerces the query-string values, validates the coerced object
and stores it back into `request.query`. -/
def validateQuerystringPart (cfg : ValidationCfg) (req : RequestState) :
    Except (ℕ × Str) RequestState :=
  if cfg.querystring.schemaType = some .zod then
    match cfg.querystring.zodV with
    | some v =>
      match v req.query with
      | .failure e => .error (400, formatZodError e (chars "querystring"))
      | .success d => .ok { req with query := d }
    | none => .ok req
  else if cfg.querystring.schemaType = some .json then
    match cfg.querystring.ajvV with
    | some v =>
      let coercedQuery := coerceQuery req.query
      let r := v coercedQuery
      if !r.ok then .error (400, formatJsonSchemaError r.errors (chars "querystring"))
      else .ok { req with query := r.data }
    | none => .ok req
  else .ok req

/-- The body block of the hook (part_021 lines 429–446). -/
def validateBodyPart (cfg : ValidationCfg) (req : RequestState) :
    Except (ℕ × Str) RequestState :=
  if cfg.body.schemaType = some .zod then
    match cfg.body.zodV with
    | some v =>
      match v req.body with
      | .failure e => .error (400, formatZodError e (chars "body"))
      | .success d => .ok { req with body := d }
    | none => .ok req
  else if cfg.body.schemaType = some .json then
    match cfg.body.ajvV with
    | some v =>
      let r := v req.body
      if !r.ok then .error (400, formatJsonSchemaError r.errors (chars "body"))
      else .ok { req with body := r.data }
    | none => .ok req
  else .ok req

/-- The headers block of the hook (part_021 lines 448–465). -/
def validateHeadersPart (cfg : ValidationCfg) (req : RequestState) :
    Except (ℕ × Str) RequestState :=
  if cfg.headers.schemaType = some .zod then
    match cfg.headers.zodV with
    | some v =>
      match v req.headers with
      | .failure e => .error (400, formatZodError e (chars "headers"))
      | .success d => .ok { req with headers := d }
    | none => .ok req
  else if cfg.headers.schemaType = some .json then
    match cfg.headers.ajvV with
    | some v =>
      let r := v req.headers
      if !r.ok then .error (400, formatJsonSchemaError r.errors (chars "headers"))
      else .ok { req with headers := r.data }
    | none => .ok req
  else .ok req

/-- From `routeRegistration.ts`: the whole preValidation hook (part_021 lines
354–466): the four part blocks run in source order; the first early reply
wins. -/
def preValidationHook (cfg : ValidationCfg) (req : RequestState) : HookResult :=
  match validateParamsPart cfg req with
  | .error (s, msg) => .reply s msg
  | .ok req1 =>
    match validateQuerystringPart cfg req1 with
    | .error (s, msg) => .reply s msg
    | .ok req2 =>
      match validateBodyPart cfg req2 with
      | .error (s, msg) => .reply s msg
      | .ok req3 =>
        match validateHeadersPart cfg req3 with
        | .error (s, msg) => .reply s msg
        | .ok req4 => .proceed req4

/-! ### The specification-side validation dispatcher (spec §4.6)

A second rendering of the dispatcher, written from the specification's words:
for each part, in the fixed order params → querystring → body → headers, run
the validator recorded for that part's provenance; at the first failing part
reply `400` with `{ error: "Bad Request: <part> - ..." }` and stop; on success
replace the part's data with the validator's output. -/

/-- Part configuration selector. -/
def partCfgOf (cfg : ValidationCfg) : PartName → PartCfg
  | .params => cfg.params
  | .querystring => cfg.querystring
  | .body => cfg.body
  | .headers => cfg.headers

/-- Request data selector (`request.<part>`). -/
def getPart (req : RequestState) : PartName → JsValue
  | .params => req.params
  | .querystring => req.query
  | .body => req.body
  | .headers => req.headers

/-- Request data update. -/
def setPart (req : RequestState) : PartName → JsValue → RequestState
  | .params, v => { req with params := v }
  | .querystring, v => { req with query := v }
  | .body, v => { req with body := v }
  | .headers, v => { req with headers := v }

/-- Spec-side check of a single part: `none` when the part has no recorded
provenance (or no validator), otherwise the validator's verdict with the
formatted message of a failure.  The language-A validator for the query
string coerces the string values first. -/
def specCheckPart (pc : PartCfg) (p : PartName) (data : JsValue) :
    Option (Except Str JsValue) :=
  match pc.schemaType with
  | some .zod =>
    match pc.zodV with
    | some v =>
      some (match v data with
            | .success d => .ok d
            | .failure e => .error (formatZodError e (partNameStr p)))
    | none => none
  | some .json =>
    match pc.ajvV with
    | some v =>
      let d := if p = .querystring then coerceQuery data else data
      let r := v d
      some (if r.ok then .ok r.data else .error (formatJsonSchemaError r.errors (partNameStr p)))
    | none => none
  | none => none

/-- Spec-side dispatcher over an ordered list of parts. -/
def specDispatchAux (cfg : ValidationCfg) :
    List PartName → RequestState → HookResult
  | [], req => .proceed req
  | p :: ps, req =>
    match specCheckPart (partCfgOf cfg p) p (getPart req p) with
    | none => specDispatchAux cfg ps req
    | some (.ok d) => specDispatchAux cfg ps (setPart req p d)
    | some (.error msg) => .reply 400 msg

/-- The fixed part order of spec §4.6. -/
def partOrder : List PartName := [.params, .querystring, .body, .headers]

/-- Spec-side validation dispatcher. -/
def specDispatch (cfg : ValidationCfg) (req : RequestState) : HookResult :=
  specDispatchAux cfg partOrder req

/-- The "numeric-looking string" notion of the claim about query-string
coercion: the JS `Number` conversion does not give `NaN` and the trimmed
string is non-empty. -/
def numericLooking (s : Str) : Bool := (jsNumber s).isSome && !(jsTrim s).isEmpty

/-- A part with no recorded provenance. -/
def emptyPartCfg : PartCfg := { schemaType := none, zodV := none, ajvV := none }

/-- A route whose only validated part is a language-A (JSON Schema)
querystring with compiled Ajv validator `v`. -/
def jsonQuerystringCfg (v : AjvValidator) : ValidationCfg :=
  { params := emptyPartCfg,
    querystring := { schemaType := some .json, zodV := none, ajvV := some v },
    body := emptyPartCfg,
    headers := emptyPartCfg }

/-! ## routeRegistration.ts: the preSerialization hook -/

/-- The body sent when response validation fails. -/
def responseValidationFailureBody (e : ZodError) : JsValue :=
  .obj [(chars "error", .str (chars "Internal Server Error")),
        (chars "message", .str (chars "Response validation failed")),
        (chars "details", .str (formatZodError e (chars "response")))]

/-- From `routeRegistration.ts` `zodValidationHook` (part_021 lines 471–509): look
up the Zod response schema for the actual status code; validate when present;
on failure force status 500 and replace the payload with the diagnostic
object; otherwise pass the (possibly transformed) payload through.  The
result is the `(status, payload)` pair after the hook. -/
def zodValidationHook (zodResponseSchemas : ℕ → Option ZodValidator)
    (statusCode : ℕ) (payload : JsValue) : ℕ × JsValue :=
  match zodResponseSchemas statusCode with
  | some v =>
    match v payload with
    | .failure e => (500, responseValidationFailureBody e)
    | .success d => (statusCode, d)
  | none => (statusCode, payload)

/-! ## defineRouteZod.ts: zodToJsonSchema

The source wraps the external converter `z.toJSONSchema(schema, { target:
'draft-2020-12', unrepresentable: 'any', override })` and afterwards executes
`delete jsonSchema.$schema`.  The converter is modelled structurally on an
inductive fragment of Zod schemas: it emits the standard node for each type
(dates are unrepresentable in draft 2020-12, so with `unrepresentable: 'any'`
they emit the empty node), calls the repository's `override` callback on every
node, and stamps the draft's `$schema` identifier onto the top-level object. -/

mutual

/-- A fragment of Zod schemas sufficient for the request-part schemas used by
the router: primitive types, `z.date()`, arrays and object schemas. -/
inductive ZodTy where
  | string
  | number
  | boolean
  | date
  | array (elem : ZodTy)
  | object (fields : ZodFields)

/-- Field lists of a Zod object schema. -/
inductive ZodFields where
  | nil
  | cons (name : Str) (ty : ZodTy) (rest : ZodFields)

end

/-- The repository's `override` callback from `zodToJsonSchema`
(`defineRouteZod.ts` lines 106–115): when the visited Zod def has type
`date`, set `type` to `"string"` and `format` to `"date-time"` on the emitted
node; otherwise leave the node alone. -/
def overrideDate (defType : Str) (js : List (Str × JsValue)) : List (Str × JsValue) :=
  if defType = chars "date" then
    setKey (chars "format") (.str (chars "date-time"))
      (setKey (chars "type") (.str (chars "string")) js)
  else js

/-- Names of a Zod object's fields, as JSON values (the `required` list). -/
def zFieldNames : ZodFields → List JsValue
  | .nil => []
  | .cons n _ rest => .str n :: zFieldNames rest

mutual

/-- Model of `z.toJSONSchema`'s per-node emission followed by the repository's
`override` callback: the override is invoked on every visited node with that
node's def type. -/
def zNode : ZodTy → List (Str × JsValue)
  | .string => overrideDate (chars "string") [(chars "type", .str (chars "string"))]
  | .number => overrideDate (chars "number") [(chars "type", .str (chars "number"))]
  | .boolean => overrideDate (chars "boolean") [(chars "type", .str (chars "boolean"))]
  | .date =>
    -- draft 2020-12 cannot represent a Date; with `unrepresentable: 'any'`
    -- the library emits the empty node, which the override then rewrites
    overrideDate (chars "date") []
  | .array e =>
    overrideDate (chars "array")
      [(chars "type", .str (chars "array")), (chars "items", .obj (zNode e))]
  | .object fs =>
    overrideDate (chars "object")
      [(chars "type", .str (chars "object")),
       (chars "properties", .obj (zFields fs)),
       (chars "required", .arr (zFieldNames fs)),
       (chars "additionalProperties", .bool false)]

/-- Conversion of an object schema's fields into JSON-Schema `properties`. -/
def zFields : ZodFields → List (Str × JsValue)
  | .nil => []
  | .cons n t rest => (n, .obj (zNode t)) :: zFields rest

end

/-- Model of the external `z.toJSONSchema(schema, { target: 'draft-2020-12',
unrepresentable: 'any', override })` call: the converted node with the
draft's self-referential `$schema` identifier on the top-level object. -/
def zToJSONSchema (t : ZodTy) : List (Str × JsValue) :=
  setKey (chars "$schema")
    (.str (chars "https://json-schema.org/draft/2020-12/schema")) (zNode t)

/-- From `defineRouteZod.ts` `zodToJsonSchema`: run the converter with the
`override` callback, then `delete jsonSchema.$schema`. -/
def zodToJsonSchema (t : ZodTy) : List (Str × JsValue) :=
  removeKey (chars "$schema") (zToJSONSchema t)

mutual

/-- The property claimed of the conversion (spec §4.4): every native date
node of the source schema is mapped to a canonical node with `type "string"`
and `format "date-time"`, following the structure of arrays and objects. -/
def datesMapped : ZodTy → JsValue → Bool
  | .date, .obj o =>
    (match lookupKey (chars "type") o with
     | some (.str s) => s = chars "string"
     | _ => false) &&
    (match lookupKey (chars "format") o with
     | some (.str s) => s = chars "date-time"
     | _ => false)
  | .date, _ => false
  | .array e, .obj o =>
    (match lookupKey (chars "items") o with
     | some j => datesMapped e j
     | none => false)
  | .array _, _ => false
  | .object fs, .obj o =>
    (match lookupKey (chars "properties") o with
     | some (.obj ps) => fieldsDatesMapped fs ps
     | _ => false)
  | .object _, _ => false
  | _, _ => true

/-- The `properties` object is field-for-field the conversion of the source
fields, with every date field mapped. -/
def fieldsDatesMapped : ZodFields → List (Str × JsValue) → Bool
  | .nil, [] => true
  | .cons n t rest, (n', j) :: ps => n = n' && datesMapped t j && fieldsDatesMapped rest ps
  | _, _ => false

end

/-! ## The Parameter Consistency Checker (spec §4.5)

Modelled from the spec: the checker (`extractRouteParams` /
`validateParamsSchema` of `routeRegistration.ts`) is not under `src/` — only
its unit tests and its call from `registerRoutes` are.  Spec §4.5: extract
the parameter names implied by the compiled URL pattern (every segment
written as `:name`) and the property names declared by the params-part
schema; the two sets must be identical; any name present in one but not the
other is a fatal startup error naming exactly which names are missing from
which side; skip entirely for wildcard routes, and when there is no params
schema. -/

/-- Modelled from the spec: the parameter names of a compiled URL pattern —
every `/`-separated segment written as `:name`. -/
def extractRouteParams (routePath : Str) : List Str :=
  (splitOnChar '/' routePath).filterMap fun seg =>
    match seg with
    | ':' :: name => some name
    | _ => none

/-- Modelled from the spec: a wildcard route is one whose compiled pattern
contains a `*` segment (the Parameter Consistency Checker skips these). -/
def isWildcardRoute (routePath : Str) : Bool :=
  (splitOnChar '/' routePath).any fun seg => seg = chars "*"

/-- The fatal error message of a parameter/schema mismatch, naming the names
missing from the route path and the names missing from the schema. -/
def mismatchMessage (fullPath : Str) (missingInPath missingInSchema : List Str) : Str :=
  chars "Parameter schema mismatch in file " ++ fullPath ++
    chars ": Missing in route path: " ++ List.intercalate (chars ", ") missingInPath ++
    chars "; Missing in schema: " ++ List.intercalate (chars ", ") missingInSchema

/-- Modelled from the spec: the Parameter Consistency Checker
(`validateParamsSchema`).  `paramsProps` is the property-name set declared by
the params-part schema (extracted from either description language), `none`
when the route declares no params schema. -/
def validateParamsSchema (routePath : Str) (paramsProps : Option (List Str))
    (fullPath : Str) : Except Str Unit :=
  match paramsProps with
  | none => .ok ()
  | some props =>
    if isWildcardRoute routePath then .ok ()
    else
      let pathParams := extractRouteParams routePath
      let missingInPath := props.filter fun p => !pathParams.contains p
      let missingInSchema := pathParams.filter fun p => !props.contains p
      if missingInPath.isEmpty && missingInSchema.isEmpty then .ok ()
      else .error (mismatchMessage fullPath missingInPath missingInSchema)

/-! ## Helper lemmas -/

theorem hasDoubleSlash_cons_iff (a : Char) (l : Str) :
    hasDoubleSlash (a :: l) = true ↔ (a = '/' ∧ l.head? = some '/') ∨ hasDoubleSlash l = true := by
  cases l <;> simp [hasDoubleSlash]

theorem hasDoubleSlash_append_iff (xs ys : Str) :
    hasDoubleSlash (xs ++ ys) = true ↔
      hasDoubleSlash xs = true ∨ hasDoubleSlash ys = true ∨
        (xs.getLast? = some '/' ∧ ys.head? = some '/') := by
  induction xs with
  | nil => simp [hasDoubleSlash]
  | cons x xs ih =>
    cases xs with
    | nil => simp [hasDoubleSlash_cons_iff, hasDoubleSlash]; tauto
    | cons y t =>
      rw [List.cons_append, List.cons_append, hasDoubleSlash_cons_iff,
        hasDoubleSlash_cons_iff x (y :: t)]
      rw [List.cons_append] at ih
      simp only [ih, List.head?_cons, List.getLast?_cons_cons]
      tauto

theorem hasDoubleSlash_eq_false_of_not_mem {l : Str} (h : '/' ∉ l) :
    hasDoubleSlash l = false := by
  induction l with
  | nil => rfl
  | cons a l ih =>
    have ha : ¬(a = '/') ∧ '/' ∉ l := by
      constructor
      · intro e; exact h (e ▸ List.mem_cons_self a l)
      · intro hm; exact h (List.mem_cons_of_mem a hm)
    rw [← Bool.not_eq_true, hasDoubleSlash_cons_iff]
    rintro (⟨h1, _⟩ | h2)
    · exact ha.1 h1
    · rw [ih ha.2] at h2; cases h2

theorem head?_ne_slash_of_not_mem {l : Str} (h : '/' ∉ l) : l.head? ≠ some '/' := by
  cases l with
  | nil => simp
  | cons c t =>
    intro e
    simp only [List.head?_cons, Option.some.injEq] at e
    subst e
    exact h (List.mem_cons_self _ t)

theorem mapExcept_ok_get {ε α β : Type} (f : α → Except ε β) :
    ∀ (l : List α) (res : List β), mapExcept f l = .ok res →
      ∀ (i : ℕ) (a : α), l[i]? = some a → ∃ b, f a = .ok b ∧ res[i]? = some b := by
  intro l
  induction l with
  | nil => intro res _ i a ha; simp at ha
  | cons x xs ih =>
    intro res h i a ha
    rcases hfx : f x with e | b
    · rw [mapExcept, hfx] at h; cases h
    · rcases hmx : mapExcept f xs with e | bs
      · rw [mapExcept, hfx, hmx] at h; cases h
      · rw [mapExcept, hfx, hmx] at h
        cases h
        cases i with
        | zero =>
          simp only [List.getElem?_cons_zero, Option.some.injEq] at ha
          exact ⟨b, ha ▸ hfx, by simp⟩
        | succ j =>
          simp only [List.getElem?_cons_succ] at ha ⊢
          exact ih bs hmx j a ha

theorem replaceLitDot_eq_self (repl : Str) :
    ∀ l : Str, containsSeq litDot l = false → replaceLitDot repl l = l := by
  intro l
  induction l using replaceLitDot.induct repl with
  | case1 rest ih =>
    intro h
    rw [containsSeq] at h
    simp [List.isPrefixOf, litDot, chars] at h
  | case2 c rest hne ih =>
    intro h
    rw [containsSeq, Bool.or_eq_false_iff] at h
    rw [replaceLitDot.eq_def]
    split
    · rename_i heq
      exfalso
      cases heq
      simp [List.isPrefixOf, litDot, chars] at h
    · rename_i heq
      cases heq
      rw [ih h.2]
    · rename_i heq
      exact absurd heq (by simp)
  | case3 => intro _; rfl

theorem processSegments_eq_self :
    ∀ toks : List Str, (∀ t ∈ toks, t ≠ [] ∧ containsSeq placeholder t = false) →
      processSegments toks = toks := by
  intro toks
  induction toks with
  | nil => intro _; rfl
  | cons t rest ih =>
    intro h
    obtain ⟨ht1, ht2⟩ := h t (List.mem_cons_self t rest)
    have hne : t ≠ placeholder := by
      intro e
      rw [e] at ht2
      have : containsSeq placeholder placeholder = true := by decide
      rw [this] at ht2
      cases ht2
    have ht1' : t.isEmpty = false := by
      cases t with
      | nil => exact absurd rfl ht1
      | cons c u => rfl
    rw [processSegments, if_neg hne, ht2, ht1']
    simp [ih fun u hu => h u (List.mem_cons_of_mem t hu)]

theorem lookupKey_removeKey (k : Str) (o : List (Str × JsValue)) :
    lookupKey k (removeKey k o) = none := by
  induction o with
  | nil => rfl
  | cons p rest ih =>
    obtain ⟨a, v⟩ := p
    by_cases ha : a = k
    · simpa [removeKey, ha] using ih
    · simpa [removeKey, lookupKey, ha] using ih

theorem lookupKey_removeKey_ne (k k' : Str) (o : List (Str × JsValue)) (h : k ≠ k') :
    lookupKey k (removeKey k' o) = lookupKey k o := by
  induction o with
  | nil => rfl
  | cons p rest ih =>
    obtain ⟨a, v⟩ := p
    by_cases ha : a = k'
    · have hak : ¬(a = k) := by rw [ha]; exact fun e => h e.symm
      have hkk : ¬(k' = k) := fun e => h e.symm
      simp [removeKey, lookupKey, ha, hak, ih, hkk]
    · by_cases hak : a = k
      · simp [removeKey, lookupKey, ha, hak, h]
      · simp [removeKey, lookupKey, ha, hak, ih]

theorem lookupKey_setKey_ne (k k' : Str) (v : JsValue) (o : List (Str × JsValue))
    (h : k ≠ k') : lookupKey k (setKey k' v o) = lookupKey k o := by
  have hkk : ¬(k' = k) := fun e => h e.symm
  induction o with
  | nil => simp [setKey, lookupKey, hkk]
  | cons p rest ih =>
    obtain ⟨a, v'⟩ := p
    by_cases ha : a = k'
    · have hak : ¬(a = k) := by rw [ha]; exact hkk
      simp [setKey, lookupKey, ha, hak, hkk]
    · by_cases hak : a = k
      · simp [setKey, lookupKey, ha, hak, h]
      · simp [setKey, lookupKey, ha, hak, ih]

mutual

theorem zNode_datesMapped : (t : ZodTy) → datesMapped t (.obj (zNode t)) = true
  | .string => rfl
  | .number => rfl
  | .boolean => rfl
  | .date => rfl
  | .array e => zNode_datesMapped e
  | .object fs => zFields_datesMapped fs

theorem zFields_datesMapped : (fs : ZodFields) → fieldsDatesMapped fs (zFields fs) = true
  | .nil => rfl
  | .cons n t rest => by
    have h1 := zNode_datesMapped t
    have h2 := zFields_datesMapped rest
    have he : fieldsDatesMapped (.cons n t rest) (zFields (.cons n t rest)) =
        ((n = n : Bool) && datesMapped t (.obj (zNode t)) &&
          fieldsDatesMapped rest (zFields rest)) := rfl
    rw [he, h1, h2]
    simp

end

/-! ## Claim theorems -/

/-- C5: Parsing the file name `api.v1[.].0.get.ts` with the escape token
`[.]` yields method `get` and route segments `api`, `v1`, `[.]`, `0`; the
escape token merges its predecessor and successor into the single segment
`v1.0`, and under Convention A (remix) the segments compile to the path
`api/v1.0`. -/
theorem c5_escape_token_example :
    parseFileName (chars "api.v1[.].0.get.ts")
        [chars ".js", chars ".ts", chars ".jsx", chars ".tsx"]
        (chars "/routes/api.v1[.].0.get.ts") =
      .ok (some { routeSegments := [chars "api", chars "v1", litDot, chars "0"],
                  method := chars "get", extension := chars ".ts" }) ∧
    mergeLiteralDots [chars "api", chars "v1", litDot, chars "0"]
        (chars "/routes/api.v1[.].0.get.ts") = .ok [chars "api", chars "v1.0"] ∧
    toRouteRemixStyle [chars "api", chars "v1", litDot, chars "0"]
        (chars "/routes/api.v1[.].0.get.ts") = .ok (chars "api/v1.0") := by
  refine ⟨rfl, rfl, rfl⟩

/-- C6, counterexample: `toHttpMethod` succeeds on the string `get.ts`,
which is not one of the six method names: `methodRegex` also accepts a method
name followed by a dot and a non-empty remainder, so the claimed equivalence
over every string fails. -/
theorem c6_counterexample :
    toHttpMethod (chars "get.ts") (chars "/routes/x") = .ok (chars "get.ts") ∧
    chars "get.ts" ∉ validMethods := by
  constructor
  · rfl
  · decide

/-- C6, amended: `toHttpMethod m` succeeds (returning `m`) iff `m`
matches `methodRegex` — one of the six lowercase method names, optionally
followed by a dot and a non-empty remainder; on every other string it throws
the error naming the offending file; and on strings containing no dot the
regex accepts exactly the six method names. -/
theorem c6_toHttpMethod_amended (m fullPath : Str) :
    (toHttpMethod m fullPath = .ok m ↔ methodRegexTest m = true) ∧
    (methodRegexTest m = false →
      toHttpMethod m fullPath =
        .error (chars "Invalid method \"" ++ m ++ chars "\" in file " ++ fullPath)) ∧
    ('.' ∉ m → (methodRegexTest m = true ↔ m ∈ validMethods)) := by
  refine ⟨⟨?_, ?_⟩, ?_, ?_⟩
  · intro h
    by_contra hn
    have hf : methodRegexTest m = false := by simpa using hn
    simp [toHttpMethod, hf] at h
  · intro h
    have hne : m.isEmpty = false := by
      cases m with
      | nil => exact absurd h (by decide)
      | cons c t => rfl
    simp [toHttpMethod, hne, h]
  · intro h
    simp [toHttpMethod, h]
  · intro hdot
    constructor
    · intro h
      rw [methodRegexTest, List.any_eq_true] at h
      obtain ⟨v, hv, hcase⟩ := h
      rw [Bool.or_eq_true] at hcase
      rcases hcase with he | hpre
      · have he' : m = v := of_decide_eq_true he
        exact he' ▸ hv
      · rw [Bool.and_eq_true, Bool.and_eq_true] at hpre
        obtain ⟨⟨hp, _⟩, _⟩ := hpre
        rw [ List.isPrefixOf_iff_prefix] at hp
        obtain ⟨t, ht⟩ := hp
        exfalso
        apply hdot
        rw [← ht]
        simp
    · intro hm
      rw [methodRegexTest, List.any_eq_true]
      exact ⟨m, hm, by simp⟩

/-- Witness for the amended C6: at the concrete token `get`, the regex test
agrees with membership in the six-method set and `toHttpMethod` succeeds. -/
theorem c6_witness :
    (methodRegexTest (chars "get") = true ↔ chars "get" ∈ validMethods) ∧
    toHttpMethod (chars "get") (chars "/f") = .ok (chars "get") := by
  constructor
  · exact (c6_toHttpMethod_amended (chars "get") (chars "/f")).2.2 (by decide)
  · exact (c6_toHttpMethod_amended (chars "get") (chars "/f")).1.mpr (by decide)

/-- C7, counterexample: `api` is a compiled route path and `/v1/` is a
mount point starting with `/`, yet `buildUrl` produces `/v1//api`, which has
a duplicated `/` separator at the mount boundary. -/
theorem c7_counterexample :
    toRouteRemixStyle [chars "api"] (chars "/routes/api.get.ts") = .ok (chars "api") ∧
    (chars "/v1/").head? = some '/' ∧
    buildUrl (chars "api") (chars "/v1/") = chars "/v1//api" ∧
    hasDoubleSlash (buildUrl (chars "api") (chars "/v1/")) = true := by
  refine ⟨rfl, rfl, rfl, rfl⟩

/-- Core of the amended C7, stated for the stripped route path: if the path
does not start with `/` and has no duplicated separator, and the mount point
starts with `/`, has no duplicated separator and does not end with `/`
unless it is exactly `/`, then the URL has exactly one leading `/` and no
duplicated separator anywhere. -/
theorem buildUrl_mount_ok (q m : Str) (hq1 : q.head? ≠ some '/')
    (hq2 : hasDoubleSlash q = false)
    (hm1 : m.head? = some '/') (hm2 : hasDoubleSlash m = false)
    (hm3 : m = chars "/" ∨ m.getLast? ≠ some '/') :
    (buildUrl q m).head? = some '/' ∧
    (buildUrl q m).tail.head? ≠ some '/' ∧
    hasDoubleSlash (buildUrl q m) = false := by
  have hslashq : hasDoubleSlash ('/' :: q) = false := by
    rw [← Bool.not_eq_true, hasDoubleSlash_cons_iff]
    rintro (⟨_, hh⟩ | hh)
    · exact hq1 hh
    · rw [hq2] at hh; cases hh
  by_cases hm : m = chars "/"
  · subst hm
    have hb : buildUrl q (chars "/") = '/' :: q := by
      simp [buildUrl, hq1]
    rw [hb]
    exact ⟨rfl, by simpa using hq1, hslashq⟩
  · cases m with
    | nil => simp at hm1
    | cons c t =>
      have hc : c = '/' := by simpa using hm1
      subst hc
      have hm3' : ('/' :: t).getLast? ≠ some '/' := hm3.resolve_left hm
      have hb : buildUrl q ('/' :: t) = ('/' :: t) ++ '/' :: q := by
        simp [buildUrl, hq1, hm]
      rw [hb]
      refine ⟨rfl, ?_, ?_⟩
      · -- second character: the head of `t ++ '/' :: q` is not a slash
        cases t with
        | nil => exact absurd rfl hm
        | cons d t' =>
          simp only [List.cons_append, List.tail_cons, List.head?_cons]
          intro hd
          simp only [Option.some.injEq] at hd
          subst hd
          rw [← Bool.not_eq_true, hasDoubleSlash_cons_iff] at hm2
          exact hm2 (Or.inl ⟨rfl, by simp⟩)
      · rw [← Bool.not_eq_true, hasDoubleSlash_append_iff]
        rintro (hh | hh | ⟨h1, _⟩)
        · rw [hm2] at hh; cases hh
        · rw [hslashq] at hh; cases hh
        · exact hm3' h1

/-- C7, amended: For every route path with no duplicated `//` separator of
its own (every compiled path — a `/`-join of non-empty slash-free segments —
qualifies) and every configured mount point that starts with `/`, itself
contains no duplicated separator, and does not end with `/` unless it is
exactly `/`, the URL produced by `buildUrl` starts with exactly one leading
`/` and contains no duplicated `/` separator anywhere — in particular not at
the mount boundary. -/
theorem c7_buildUrl_amended (p m : Str) (hp : hasDoubleSlash p = false)
    (hm1 : m.head? = some '/') (hm2 : hasDoubleSlash m = false)
    (hm3 : m = chars "/" ∨ m.getLast? ≠ some '/') :
    (buildUrl p m).head? = some '/' ∧
    (buildUrl p m).tail.head? ≠ some '/' ∧
    hasDoubleSlash (buildUrl p m) = false := by
  cases p with
  | nil => exact buildUrl_mount_ok [] m (by simp) rfl hm1 hm2 hm3
  | cons c t =>
    by_cases hc : c = '/'
    · subst hc
      -- `buildUrl` strips the leading slash itself: it coincides with
      -- `buildUrl` on the stripped path, which starts with no slash
      have ht1 : t.head? ≠ some '/' := by
        intro h
        rw [← Bool.not_eq_true, hasDoubleSlash_cons_iff] at hp
        exact hp (Or.inl ⟨rfl, h⟩)
      have ht2 : hasDoubleSlash t = false := by
        rw [← Bool.not_eq_true]
        intro h
        rw [← Bool.not_eq_true, hasDoubleSlash_cons_iff] at hp
        exact hp (Or.inr h)
      have hb : buildUrl ('/' :: t) m = buildUrl t m := by
        simp [buildUrl, ht1]
      rw [hb]
      exact buildUrl_mount_ok t m ht1 ht2 hm1 hm2 hm3
    · exact buildUrl_mount_ok (c :: t) m (by simp [hc]) hp hm1 hm2 hm3

/-- Witness for the amended C7: the repository's own test case, the
multi-segment route path `api/health` with mount `/v1`, producing
`/v1/api/health`. -/
theorem c7_witness :
    hasDoubleSlash (chars "api/health") = false ∧
    buildUrl (chars "api/health") (chars "/v1") = chars "/v1/api/health" ∧
    ((buildUrl (chars "api/health") (chars "/v1")).head? = some '/' ∧
     (buildUrl (chars "api/health") (chars "/v1")).tail.head? ≠ some '/' ∧
     hasDoubleSlash (buildUrl (chars "api/health") (chars "/v1")) = false) := by
  refine ⟨by decide, rfl, c7_buildUrl_amended _ _ (by decide) rfl rfl (by decide)⟩

/-- C10: Under Convention A, whenever the escape-merged segment list has
the bare sigil `$` at position `i` (the only parameter segment with an empty
name) and the per-segment conversion succeeds, the converted list has the
wildcard `*` at the same position `i` — final or not — and compilation
returns the `/`-join of the converted list, so a wildcard can sit in the
middle of a compiled pattern. -/
theorem c10_remix_wildcard_position (segments : List Str) (fullPath : Str)
    (ms cs : List Str) (i : ℕ)
    (hm : mergeLiteralDots segments fullPath = .ok ms)
    (hc : mapExcept (convertRemixSegment fullPath) ms = .ok cs)
    (hi : ms[i]? = some (chars "$")) :
    cs[i]? = some (chars "*") ∧
      toRouteRemixStyle segments fullPath = .ok (List.intercalate (chars "/") cs) := by
  obtain ⟨b, hb, hci⟩ := mapExcept_ok_get (convertRemixSegment fullPath) ms cs hc i _ hi
  have hconv : convertRemixSegment fullPath (chars "$") = .ok (chars "*") := rfl
  rw [hconv] at hb
  injection hb with hb
  subst hb
  refine ⟨hci, ?_⟩
  simp [toRouteRemixStyle, hm, hc]

/-- Witness for C10: the non-final `$` in `api.$.files` is accepted and
compiles to the middle wildcard of `api/*/files`. -/
theorem c10_witness :
    mergeLiteralDots [chars "api", chars "$", chars "files"] (chars "/f") =
      .ok [chars "api", chars "$", chars "files"] ∧
    ([chars "api", chars "$", chars "files"] : List Str)[1]? = some (chars "$") ∧
    List.intercalate (chars "/") [chars "api", chars "*", chars "files"] =
      chars "api/*/files" ∧
    (([chars "api", chars "*", chars "files"] : List Str)[1]? = some (chars "*") ∧
      toRouteRemixStyle [chars "api", chars "$", chars "files"] (chars "/f") =
        .ok (List.intercalate (chars "/") [chars "api", chars "*", chars "files"])) := by
  refine ⟨rfl, rfl, rfl, c10_remix_wildcard_position _ _ _ _ 1 rfl rfl rfl⟩

/-- C8, counterexample: two file names on which the claim, read over every
file name with "dot-separated tokens" the plain dot-split, fails against the
code.  `a[.]ts` has 2 dot-separated tokens and its final token `]ts` is not
an accepted extension, so the claim says `parseFileName` returns null — but
the code first replaces the escape token `[.]` by the dot-free placeholder,
leaving a single token, and throws.  `a..get.ts` has the empty second token,
so the claim says the route segments are the leading tokens `a`, `` — but
the code drops empty tokens and returns only `a`. -/
theorem c8_counterexample :
    ((splitOnChar '.' (chars "a[.]ts")).length = 2 ∧
     (splitOnChar '.' (chars "a[.]ts")).getLast? = some (chars "]ts") ∧
     ([chars ".ts"] : List Str).contains ('.' :: chars "]ts") = false ∧
     parseFileName (chars "a[.]ts") [chars ".ts"] (chars "/r/a[.]ts") =
       .error (chars "Invalid file name \"a[.]ts\" in file /r/a[.]ts, must have at least 2 segments separated by a dot")) ∧
    ((splitOnChar '.' (chars "a..get.ts")).dropLast.dropLast = [chars "a", []] ∧
     parseFileName (chars "a..get.ts") [chars ".ts"] (chars "/r/a..get.ts") =
       .ok (some { routeSegments := [chars "a"], method := chars "get",
                   extension := chars ".ts" }) ∧
     ([chars "a"] : List Str) ≠ [chars "a", []]) := by
  exact ⟨⟨rfl, rfl, rfl, rfl⟩, ⟨rfl, rfl, by decide⟩⟩

/-- C8, amended: For a file name free of the escape token and of empty dot-tokens:
fewer than 2 dot-separated tokens is a thrown (startup-fatal) error; at least
2 tokens whose final token is not an accepted extension returns `null` (the
caller skips the file); otherwise the leading tokens are the route segments,
the next-to-last token the method and the last token (with a dot) the
extension. -/
theorem c8_parseFileName_spec (fileName fullPath : Str) (extensions : List Str)
    (h1 : containsSeq litDot fileName = false)
    (h2 : ∀ t ∈ splitOnChar '.' fileName, t ≠ [] ∧ containsSeq placeholder t = false) :
    ((splitOnChar '.' fileName).length < 2 →
      ∃ msg, parseFileName fileName extensions fullPath = .error msg) ∧
    (∀ last, 2 ≤ (splitOnChar '.' fileName).length →
      (splitOnChar '.' fileName).getLast? = some last →
      extensions.contains ('.' :: last) = false →
      parseFileName fileName extensions fullPath = .ok none) ∧
    (∀ last m, 2 ≤ (splitOnChar '.' fileName).length →
      (splitOnChar '.' fileName).getLast? = some last →
      (splitOnChar '.' fileName).dropLast.getLast? = some m →
      extensions.contains ('.' :: last) = true →
      parseFileName fileName extensions fullPath =
        .ok (some { routeSegments := (splitOnChar '.' fileName).dropLast.dropLast,
                    method := m, extension := '.' :: last })) := by
  have hrepl : replaceLitDot placeholder fileName = fileName :=
    replaceLitDot_eq_self placeholder fileName h1
  have hproc : processSegments (splitOnChar '.' fileName) = splitOnChar '.' fileName :=
    processSegments_eq_self _ h2
  refine ⟨?_, ?_, ?_⟩
  · intro hlt
    refine ⟨chars "Invalid file name \"" ++ fileName ++ chars "\" in file " ++ fullPath ++
      chars ", must have at least 2 segments separated by a dot", ?_⟩
    simp [parseFileName, hrepl, hlt]
  · intro last hge hlast hext
    have hnlt : ¬ ((splitOnChar '.' fileName).length < 2) := by omega
    have hext' : '.' :: last ∉ extensions := by simpa using hext
    simp [parseFileName, hrepl, hproc, hnlt, hlast, hext']
  · intro last m hge hlast hm hext
    have hnlt : ¬ ((splitOnChar '.' fileName).length < 2) := by omega
    have hext' : '.' :: last ∈ extensions := by simpa using hext
    have hmem : m ∈ splitOnChar '.' fileName :=
      (List.dropLast_sublist (splitOnChar '.' fileName)).subset (List.mem_of_mem_getLast? hm)
    have hmne : m ≠ [] := (h2 _ hmem).1
    simp [parseFileName, hrepl, hproc, hnlt, hlast, hm, hext', hmne]

/-- Witness for C8: `api.users.get.ts` with accepted extension `.ts` parses
into segments `api`, `users`, method `get`, extension `.ts`. -/
theorem c8_witness :
    parseFileName (chars "api.users.get.ts") [chars ".ts"] (chars "/r/api.users.get.ts") =
      .ok (some { routeSegments := (splitOnChar '.' (chars "api.users.get.ts")).dropLast.dropLast,
                  method := chars "get", extension := '.' :: chars "ts" }) := by
  exact (c8_parseFileName_spec (chars "api.users.get.ts") (chars "/r/api.users.get.ts")
    [chars ".ts"] (by decide) (by decide)).2.2 (chars "ts") (chars "get")
    (by decide) (by decide) (by decide) (by decide)

/-- C9: For every Zod schema (in the modelled fragment) the canonical
description produced by `zodToJsonSchema` has no top-level `$schema`
(self-referential schema-identifier) property, and every native date node of
the source schema is mapped to a node with `type "string"` and
`format "date-time"`. -/
theorem c9_zodToJsonSchema_spec (t : ZodTy) :
    lookupKey (chars "$schema") (zodToJsonSchema t) = none ∧
    datesMapped t (.obj (zodToJsonSchema t)) = true := by
  have hkeys : ∀ key, key ≠ chars "$schema" →
      lookupKey key (zodToJsonSchema t) = lookupKey key (zNode t) := by
    intro key hk
    rw [zodToJsonSchema, zToJSONSchema, lookupKey_removeKey_ne _ _ _ hk,
      lookupKey_setKey_ne _ _ _ _ hk]
  refine ⟨lookupKey_removeKey _ _, ?_⟩
  cases t with
  | string => rfl
  | number => rfl
  | boolean => rfl
  | date =>
    have h1 : lookupKey (chars "type") (zodToJsonSchema .date) = some (.str (chars "string")) := by
      rw [hkeys _ (by decide)]; rfl
    have h2 : lookupKey (chars "format") (zodToJsonSchema .date) =
        some (.str (chars "date-time")) := by
      rw [hkeys _ (by decide)]; rfl
    have he : datesMapped .date (.obj (zodToJsonSchema .date)) =
        ((match lookupKey (chars "type") (zodToJsonSchema .date) with
          | some (.str s) => (s = chars "string" : Bool)
          | _ => false) &&
         (match lookupKey (chars "format") (zodToJsonSchema .date) with
          | some (.str s) => (s = chars "date-time" : Bool)
          | _ => false)) := rfl
    rw [he, h1, h2]
    decide
  | array e =>
    have h1 : lookupKey (chars "items") (zodToJsonSchema (.array e)) =
        some (.obj (zNode e)) := by
      rw [hkeys _ (by decide)]; rfl
    have he : datesMapped (.array e) (.obj (zodToJsonSchema (.array e))) =
        (match lookupKey (chars "items") (zodToJsonSchema (.array e)) with
         | some j => datesMapped e j
         | none => false) := rfl
    rw [he, h1]
    exact zNode_datesMapped e
  | object fs =>
    have h1 : lookupKey (chars "properties") (zodToJsonSchema (.object fs)) =
        some (.obj (zFields fs)) := by
      rw [hkeys _ (by decide)]; rfl
    have he : datesMapped (.object fs) (.obj (zodToJsonSchema (.object fs))) =
        (match lookupKey (chars "properties") (zodToJsonSchema (.object fs)) with
         | some (.obj ps) => fieldsDatesMapped fs ps
         | _ => false) := rfl
    rw [he, h1]
    exact zFields_datesMapped fs

/-- C1: (spec-modelled) For every non-wildcard route with a params
schema, the Parameter Consistency Checker succeeds exactly when the set of
`:name` parameters of the compiled pattern equals the schema's property set,
and on any difference it fails with the fatal message naming exactly the
names missing from the path and the names missing from the schema. -/
theorem c1_params_consistency (routePath fullPath : Str) (props : List Str)
    (hw : isWildcardRoute routePath = false) :
    (validateParamsSchema routePath (some props) fullPath = .ok () ↔
      ((∀ x ∈ props, x ∈ extractRouteParams routePath) ∧
       (∀ x ∈ extractRouteParams routePath, x ∈ props))) ∧
    (¬ ((∀ x ∈ props, x ∈ extractRouteParams routePath) ∧
        (∀ x ∈ extractRouteParams routePath, x ∈ props)) →
      validateParamsSchema routePath (some props) fullPath =
        .error (mismatchMessage fullPath
          (props.filter fun p => !(extractRouteParams routePath).contains p)
          ((extractRouteParams routePath).filter fun p => !props.contains p))) := by
  have key : ((props.filter fun p => !(extractRouteParams routePath).contains p).isEmpty &&
        ((extractRouteParams routePath).filter fun p => !props.contains p).isEmpty) = true ↔
      ((∀ x ∈ props, x ∈ extractRouteParams routePath) ∧
       (∀ x ∈ extractRouteParams routePath, x ∈ props)) := by
    simp [List.isEmpty_iff, List.filter_eq_nil_iff]
  cases hfe : ((props.filter fun p => !(extractRouteParams routePath).contains p).isEmpty &&
      ((extractRouteParams routePath).filter fun p => !props.contains p).isEmpty) with
  | true =>
    constructor
    · simp only [validateParamsSchema, hw, Bool.false_eq_true, if_false, hfe, if_true]
      exact ⟨fun _ => key.mp hfe, fun _ => trivial⟩
    · intro hc
      exact absurd (key.mp hfe) hc
  | false =>
    constructor
    · constructor
      · intro h
        simp only [validateParamsSchema, hw, Bool.false_eq_true, if_false, hfe] at h
        cases h
      · intro hs
        rw [key.mpr hs] at hfe
        cases hfe
    · intro _
      simp only [validateParamsSchema, hw, Bool.false_eq_true, if_false, hfe]

/-- Witness for C1 (Example 5 of the spec): a route compiling to path `:id`
with a params schema declaring only `oid` fails, naming `oid` as missing from
the path and `id` as missing from the schema. -/
theorem c1_witness :
    validateParamsSchema (chars ":id") (some [chars "oid"]) (chars "/routes/x.get.ts") =
      .error (mismatchMessage (chars "/routes/x.get.ts") [chars "oid"] [chars "id"]) := by
  exact (c1_params_consistency (chars ":id") (chars "/routes/x.get.ts") [chars "oid"]
    (by decide)).2 (by decide)

/-- C3: For every response: no registered Zod schema for the actual
status code passes the payload through unchanged; a registered schema that
validates substitutes the (possibly transformed) value; a registered schema
that fails forces status 500 with the structured
`Internal Server Error / Response validation failed` body. -/
theorem c3_response_validation (zodResponseSchemas : ℕ → Option ZodValidator)
    (statusCode : ℕ) (payload : JsValue) :
    (zodResponseSchemas statusCode = none →
      zodValidationHook zodResponseSchemas statusCode payload = (statusCode, payload)) ∧
    (∀ v d, zodResponseSchemas statusCode = some v → v payload = .success d →
      zodValidationHook zodResponseSchemas statusCode payload = (statusCode, d)) ∧
    (∀ v e, zodResponseSchemas statusCode = some v → v payload = .failure e →
      zodValidationHook zodResponseSchemas statusCode payload =
        (500, responseValidationFailureBody e)) := by
  refine ⟨?_, ?_, ?_⟩ <;> intros <;> simp [zodValidationHook, *]

/-- Witness for C3: a schema table with a succeeding validator at 201, a
failing validator at 200 and nothing at 404, exercising all three branches. -/
theorem c3_witness :
    zodValidationHook (fun _ => none) 404 (.str (chars "x")) = (404, .str (chars "x")) ∧
    zodValidationHook (fun sc => if sc = 201 then some (fun _ => .success (.num 1)) else none)
      201 .null = (201, .num 1) ∧
    zodValidationHook
      (fun sc => if sc = 200 then
        some (fun _ => .failure [{ path := [chars "name"], message := chars "Required" }]) else none)
      200 (.obj []) =
      (500, responseValidationFailureBody [{ path := [chars "name"], message := chars "Required" }]) := by
  refine ⟨(c3_response_validation _ 404 _).1 rfl,
    (c3_response_validation _ 201 _).2.1 _ _ rfl rfl,
    (c3_response_validation _ 200 _).2.2 _ _ rfl rfl⟩

theorem validateParamsPart_eq (cfg : ValidationCfg) (req : RequestState) :
    validateParamsPart cfg req =
      match specCheckPart (partCfgOf cfg .params) .params (getPart req .params) with
      | none => .ok req
      | some (.ok d) => .ok (setPart req .params d)
      | some (.error m) => .error (400, m) := by
  rcases hst : cfg.params.schemaType with _ | st
  · simp [validateParamsPart, specCheckPart, partCfgOf, getPart, partNameStr, hst]
  · cases st with
    | zod =>
      rcases hzv : cfg.params.zodV with _ | v
      · simp [validateParamsPart, specCheckPart, partCfgOf, getPart, partNameStr, hst, hzv]
      · rcases hr : v req.params with d | e <;>
          simp [validateParamsPart, specCheckPart, partCfgOf, getPart, partNameStr, setPart, hst, hzv, hr]
    | json =>
      rcases hav : cfg.params.ajvV with _ | v
      · simp [validateParamsPart, specCheckPart, partCfgOf, getPart, partNameStr, hst, hav]
      · rcases hok : (v req.params).ok <;>
          simp [validateParamsPart, specCheckPart, partCfgOf, getPart, partNameStr, setPart, hst, hav, hok]

theorem validateQuerystringPart_eq (cfg : ValidationCfg) (req : RequestState) :
    validateQuerystringPart cfg req =
      match specCheckPart (partCfgOf cfg .querystring) .querystring (getPart req .querystring) with
      | none => .ok req
      | some (.ok d) => .ok (setPart req .querystring d)
      | some (.error m) => .error (400, m) := by
  rcases hst : cfg.querystring.schemaType with _ | st
  · simp [validateQuerystringPart, specCheckPart, partCfgOf, getPart, partNameStr, hst]
  · cases st with
    | zod =>
      rcases hzv : cfg.querystring.zodV with _ | v
      · simp [validateQuerystringPart, specCheckPart, partCfgOf, getPart, partNameStr, hst, hzv]
      · rcases hr : v req.query with d | e <;>
          simp [validateQuerystringPart, specCheckPart, partCfgOf, getPart, partNameStr, setPart, hst, hzv, hr]
    | json =>
      rcases hav : cfg.querystring.ajvV with _ | v
      · simp [validateQuerystringPart, specCheckPart, partCfgOf, getPart, partNameStr, hst, hav]
      · rcases hok : (v (coerceQuery req.query)).ok <;>
          simp [validateQuerystringPart, specCheckPart, partCfgOf, getPart, partNameStr, setPart, hst, hav, hok]

theorem validateBodyPart_eq (cfg : ValidationCfg) (req : RequestState) :
    validateBodyPart cfg req =
      match specCheckPart (partCfgOf cfg .body) .body (getPart req .body) with
      | none => .ok req
      | some (.ok d) => .ok (setPart req .body d)
      | some (.error m) => .error (400, m) := by
  rcases hst : cfg.body.schemaType with _ | st
  · simp [validateBodyPart, specCheckPart, partCfgOf, getPart, partNameStr, hst]
  · cases st with
    | zod =>
      rcases hzv : cfg.body.zodV with _ | v
      · simp [validateBodyPart, specCheckPart, partCfgOf, getPart, partNameStr, hst, hzv]
      · rcases hr : v req.body with d | e <;>
          simp [validateBodyPart, specCheckPart, partCfgOf, getPart, partNameStr, setPart, hst, hzv, hr]
    | json =>
      rcases hav : cfg.body.ajvV with _ | v
      · simp [validateBodyPart, specCheckPart, partCfgOf, getPart, partNameStr, hst, hav]
      · rcases hok : (v req.body).ok <;>
          simp [validateBodyPart, specCheckPart, partCfgOf, getPart, partNameStr, setPart, hst, hav, hok]

theorem validateHeadersPart_eq (cfg : ValidationCfg) (req : RequestState) :
    validateHeadersPart cfg req =
      match specCheckPart (partCfgOf cfg .headers) .headers (getPart req .headers) with
      | none => .ok req
      | some (.ok d) => .ok (setPart req .headers d)
      | some (.error m) => .error (400, m) := by
  rcases hst : cfg.headers.schemaType with _ | st
  · simp [validateHeadersPart, specCheckPart, partCfgOf, getPart, partNameStr, hst]
  · cases st with
    | zod =>
      rcases hzv : cfg.headers.zodV with _ | v
      · simp [validateHeadersPart, specCheckPart, partCfgOf, getPart, partNameStr, hst, hzv]
      · rcases hr : v req.headers with d | e <;>
          simp [validateHeadersPart, specCheckPart, partCfgOf, getPart, partNameStr, setPart, hst, hzv, hr]
    | json =>
      rcases hav : cfg.headers.ajvV with _ | v
      · simp [validateHeadersPart, specCheckPart, partCfgOf, getPart, partNameStr, hst, hav]
      · rcases hok : (v req.headers).ok <;>
          simp [validateHeadersPart, specCheckPart, partCfgOf, getPart, partNameStr, setPart, hst, hav, hok]

/-- C2: The preValidation hook of `registerRoutes` coincides with the
spec's dispatcher: the parts are checked in the fixed order params →
querystring → body → headers; the first failing part produces the `400`
reply with body `{ error: "Bad Request: <part> - <comma-joined,
path-prefixed messages>" }` and no later part is consulted; and a part that
validates replaces that part's request data with the validator's (possibly
coerced/defaulted) output before the next part runs. -/
theorem c2_dispatcher_refinement (cfg : ValidationCfg) (req : RequestState) :
    preValidationHook cfg req = specDispatch cfg req := by
  rw [preValidationHook, specDispatch, partOrder, validateParamsPart_eq]
  rcases h1 : specCheckPart (partCfgOf cfg .params) .params (getPart req .params) with _ | r1
  rotate_left
  · rcases r1 with m | d
    · simp [specDispatchAux, h1]
    · simp only [specDispatchAux, h1]
      rw [validateQuerystringPart_eq]
      rcases h2 : specCheckPart (partCfgOf cfg .querystring) .querystring
          (getPart (setPart req .params d) .querystring) with _ | r2
      rotate_left
      · rcases r2 with m | d2
        · simp [specDispatchAux, h2]
        · simp only [specDispatchAux, h2]
          rw [validateBodyPart_eq]
          rcases h3 : specCheckPart (partCfgOf cfg .body) .body
              (getPart (setPart (setPart req .params d) .querystring d2) .body) with _ | r3
          rotate_left
          · rcases r3 with m | d3
            · simp [specDispatchAux, h3]
            · simp only [specDispatchAux, h3]
              rw [validateHeadersPart_eq]
              rcases h4 : specCheckPart (partCfgOf cfg .headers) .headers
                  (getPart (setPart (setPart (setPart req .params d) .querystring d2) .body d3)
                    .headers) with _ | r4
              rotate_left
              · rcases r4 with m | d4 <;> simp [specDispatchAux, h4]
              · simp [specDispatchAux, h4]
          · simp only [specDispatchAux, h3]
            rw [validateHeadersPart_eq]
            rcases h4 : specCheckPart (partCfgOf cfg .headers) .headers
                (getPart (setPart (setPart req .params d) .querystring d2) .headers) with _ | r4
            rotate_left
            · rcases r4 with m | d4 <;> simp [specDispatchAux, h4]
            · simp [specDispatchAux, h4]
      · simp only [specDispatchAux, h2]
        rw [validateBodyPart_eq]
        rcases h3 : specCheckPart (partCfgOf cfg .body) .body
            (getPart (setPart req .params d) .body) with _ | r3
        rotate_left
        · rcases r3 with m | d3
          · simp [specDispatchAux, h3]
          · simp only [specDispatchAux, h3]
            rw [validateHeadersPart_eq]
            rcases h4 : specCheckPart (partCfgOf cfg .headers) .headers
                (getPart (setPart (setPart req .params d) .body d3) .headers) with _ | r4
            rotate_left
            · rcases r4 with m | d4 <;> simp [specDispatchAux, h4]
            · simp [specDispatchAux, h4]
        · simp only [specDispatchAux, h3]
          rw [validateHeadersPart_eq]
          rcases h4 : specCheckPart (partCfgOf cfg .headers) .headers
              (getPart (setPart req .params d) .headers) with _ | r4
          rotate_left
          · rcases r4 with m | d4 <;> simp [specDispatchAux, h4]
          · simp [specDispatchAux, h4]
  · simp only [specDispatchAux, h1]
    rw [validateQuerystringPart_eq]
    rcases h2 : specCheckPart (partCfgOf cfg .querystring) .querystring
        (getPart req .querystring) with _ | r2
    rotate_left
    · rcases r2 with m | d2
      · simp [specDispatchAux, h2]
      · simp only [specDispatchAux, h2]
        rw [validateBodyPart_eq]
        rcases h3 : specCheckPart (partCfgOf cfg .body) .body
            (getPart (setPart req .querystring d2) .body) with _ | r3
        rotate_left
        · rcases r3 with m | d3
          · simp [specDispatchAux, h3]
          · simp only [specDispatchAux, h3]
            rw [validateHeadersPart_eq]
            rcases h4 : specCheckPart (partCfgOf cfg .headers) .headers
                (getPart (setPart (setPart req .querystring d2) .body d3) .headers) with _ | r4
            rotate_left
            · rcases r4 with m | d4 <;> simp [specDispatchAux, h4]
            · simp [specDispatchAux, h4]
        · simp only [specDispatchAux, h3]
          rw [validateHeadersPart_eq]
          rcases h4 : specCheckPart (partCfgOf cfg .headers) .headers
              (getPart (setPart req .querystring d2) .headers) with _ | r4
          rotate_left
          · rcases r4 with m | d4 <;> simp [specDispatchAux, h4]
          · simp [specDispatchAux, h4]
    · simp only [specDispatchAux, h2]
      rw [validateBodyPart_eq]
      rcases h3 : specCheckPart (partCfgOf cfg .body) .body (getPart req .body) with _ | r3
      rotate_left
      · rcases r3 with m | d3
        · simp [specDispatchAux, h3]
        · simp only [specDispatchAux, h3]
          rw [validateHeadersPart_eq]
          rcases h4 : specCheckPart (partCfgOf cfg .headers) .headers
              (getPart (setPart req .body d3) .headers) with _ | r4
          rotate_left
          · rcases r4 with m | d4 <;> simp [specDispatchAux, h4]
          · simp [specDispatchAux, h4]
      · simp only [specDispatchAux, h3]
        rw [validateHeadersPart_eq]
        rcases h4 : specCheckPart (partCfgOf cfg .headers) .headers
            (getPart req .headers) with _ | r4
        rotate_left
        · rcases r4 with m | d4 <;> simp [specDispatchAux, h4]
        · simp [specDispatchAux, h4]

/-- C4, counterexample: `3.5` is a numeric-looking query-string value
(its `Number` conversion is not `NaN` and its trim is non-empty), yet the
coercion leaves it as the string `"3.5"` — the code refuses to coerce any
string containing a `'.'` — so not every numeric-looking string becomes the
corresponding number. -/
theorem c4_counterexample :
    numericLooking (chars "3.5") = true ∧
    coerceQueryValue (.str (chars "3.5")) = .str (chars "3.5") ∧
    coerceQueryValue (.str (chars "3.5")) ≠ JsValue.num (7 / 2 : ℚ) := by
  refine ⟨rfl, rfl, ?_⟩
  exact fun h => JsValue.noConfusion h

/-- C4, amended: In the language-A querystring branch, each string value
is coerced before structural validation: `"true"`/`"false"` become booleans,
and every numeric-looking string that does not contain a `'.'` character
becomes the corresponding number (a numeric-looking string with a decimal
point is left as a string); in particular `?page=5` with a JSON-Schema
querystring is passed to the validator with `page` equal to the number `5`
and accepted with the validator's output, while `?page=invalid` is rejected
with a 400 whose error message names `querystring`. -/
theorem c4_query_coercion_amended :
    (coerceQueryValue (.str (chars "true")) = .bool true ∧
     coerceQueryValue (.str (chars "false")) = .bool false) ∧
    (∀ (s : Str) (q : ℚ), jsNumber s = some q → (jsTrim s).isEmpty = false →
      s.contains '.' = false → coerceQueryValue (.str s) = .num q) ∧
    (∀ (v : AjvValidator) (req : RequestState) (es : List AjvError) (d : JsValue),
      req.query = .obj [(chars "page", .str (chars "5"))] →
      v (.obj [(chars "page", .num 5)]) = { ok := true, errors := es, data := d } →
      preValidationHook (jsonQuerystringCfg v) req = .proceed { req with query := d }) ∧
    (∀ (v : AjvValidator) (req : RequestState) (es : List AjvError) (d : JsValue),
      req.query = .obj [(chars "page", .str (chars "invalid"))] →
      v (.obj [(chars "page", .str (chars "invalid"))]) = { ok := false, errors := es, data := d } →
      preValidationHook (jsonQuerystringCfg v) req =
        .reply 400 (formatJsonSchemaError es (chars "querystring")) ∧
      (chars "Bad Request: querystring - ") <+: formatJsonSchemaError es (chars "querystring")) := by
  refine ⟨⟨rfl, rfl⟩, ?_, ?_, ?_⟩
  · intro s q hn ht hd
    have hs1 : s ≠ chars "true" := by
      intro e
      subst e
      rw [show jsNumber (chars "true") = none from by decide] at hn
      cases hn
    have hs2 : s ≠ chars "false" := by
      intro e
      subst e
      rw [show jsNumber (chars "false") = none from by decide] at hn
      cases hn
    have hd2 : '.' ∉ s := by simpa using hd
    simp [coerceQueryValue, hs1, hs2, hn, ht, hd, hd2]
  · intro v req es d hq hv
    have h5 : jsNumber (chars "5") = some 5 := by
      simp +decide [jsNumber, jsTrim, isJsWhitespace, splitOnChar, splitOnCharAux,
        allDigits, digitsVal, chars]
    have hco : coerceQuery (.obj [(chars "page", .str (chars "5"))]) =
        .obj [(chars "page", .num 5)] := by
      simp +decide [coerceQuery, coerceQueryValue, h5, jsTrim, isJsWhitespace]
    simp [preValidationHook, validateParamsPart, validateQuerystringPart, validateBodyPart,
      validateHeadersPart, jsonQuerystringCfg, emptyPartCfg, hq, hco, hv]
  · intro v req es d hq hv
    have hco : coerceQuery (.obj [(chars "page", .str (chars "invalid"))]) =
        .obj [(chars "page", .str (chars "invalid"))] := rfl
    constructor
    · simp [preValidationHook, validateParamsPart, validateQuerystringPart, validateBodyPart,
        validateHeadersPart, jsonQuerystringCfg, emptyPartCfg, hq, hco, hv]
    · refine ⟨List.intercalate (chars ", ") (es.map fun err =>
        (if !err.instancePath.isEmpty then err.instancePath.drop 1 ++ chars ": " else []) ++
          (match err.message with
           | some msg => msg
           | none => chars "validation failed")), ?_⟩
      rfl

/-- Witness for the amended C4: a concrete validator accepting exactly
objects whose `page` is a number, exercising the accept and reject branches
and the coercion fact at the number `5`. -/
theorem c4_witness :
    coerceQueryValue (.str (chars "5")) = .num 5 ∧
    preValidationHook
      (jsonQuerystringCfg fun data =>
        match data with
        | .obj [(_, .num _)] => { ok := true, errors := [], data := data }
        | other =>
          { ok := false,
            errors := [{ instancePath := chars "/page", message := some (chars "must be number") }],
            data := other })
      { params := .null, query := .obj [(chars "page", .str (chars "5"))],
        body := .null, headers := .null } =
      .proceed { params := .null, query := .obj [(chars "page", .num 5)],
                 body := .null, headers := .null } ∧
    preValidationHook
      (jsonQuerystringCfg fun data =>
        match data with
        | .obj [(_, .num _)] => { ok := true, errors := [], data := data }
        | other =>
          { ok := false,
            errors := [{ instancePath := chars "/page", message := some (chars "must be number") }],
            data := other })
      { params := .null, query := .obj [(chars "page", .str (chars "invalid"))],
        body := .null, headers := .null } =
      .reply 400 (formatJsonSchemaError
        [{ instancePath := chars "/page", message := some (chars "must be number") }]
        (chars "querystring")) := by
  have h5 : jsNumber (chars "5") = some 5 := by
    simp +decide [jsNumber, jsTrim, isJsWhitespace, splitOnChar, splitOnCharAux,
      allDigits, digitsVal, chars]
  refine ⟨c4_query_coercion_amended.2.1 (chars "5") 5 h5 rfl rfl, ?_, ?_⟩
  · exact c4_query_coercion_amended.2.2.1
      (fun data =>
        match data with
        | .obj [(_, .num _)] => { ok := true, errors := [], data := data }
        | other =>
          { ok := false,
            errors := [{ instancePath := chars "/page", message := some (chars "must be number") }],
            data := other })
      { params := .null, query := .obj [(chars "page", .str (chars "5"))],
        body := .null, headers := .null }
      [] (.obj [(chars "page", .num 5)]) rfl rfl
  · exact (c4_query_coercion_amended.2.2.2
      (fun data =>
        match data with
        | .obj [(_, .num _)] => { ok := true, errors := [], data := data }
        | other =>
          { ok := false,
            errors := [{ instancePath := chars "/page", message := some (chars "must be number") }],
            data := other })
      { params := .null, query := .obj [(chars "page", .str (chars "invalid"))],
        body := .null, headers := .null }
      [{ instancePath := chars "/page", message := some (chars "must be number") }]
      (.obj [(chars "page", .str (chars "invalid"))]) rfl rfl).1

end FFR
